import Mathlib

/-!
Shallow embedding of the swarmauri-sdk adapters (GroqVisionModel, VoyageEmbedding)
and verification of the spec's claims about them.

The embedding models Python JSON values, the dictionary/list access semantics used
by `GroqVisionModel._format_messages`, `predict`, `apredict`, `stream`, `astream`,
`batch`, `abatch`, and `VoyageEmbedding.__init__`. External library behaviour
(`json.loads`) is a parameter; HTTP transport outcomes are parameters; the
`Conversation` collaborator (not part of the sources) is modelled from the spec as
an append-only list of messages.
-/

/-- Python-level JSON values, as produced by `json.loads` / `response.json()`.
`null` models Python `None`. Objects are association lists of string keys. -/
inductive Json where
  | null
  | bool (b : Bool)
  | num (n : Int)
  | str (s : String)
  | arr (elems : List Json)
  | obj (fields : List (String × Json))

/-- The Python exceptions that the adapter code can raise on the paths the claims
are about. `jsonDecodeError` is `json.JSONDecodeError`; `transportError` stands for
`requests`/`httpx` network errors and `raise_for_status` HTTP errors;
`validationError` is a pydantic validation failure; `valueError` is `ValueError`. -/
inductive PyError where
  | keyError
  | indexError
  | typeError
  | transportError
  | validationError
  | valueError
deriving DecidableEq, Repr

/-- Python truthiness of a JSON value (`if chunk["choices"][0]["delta"]:`). -/
def Json.truthy : Json → Bool
  | .null => false
  | .bool b => b
  | .num n => n != 0
  | .str s => s != ""
  | .arr xs => !xs.isEmpty
  | .obj fs => !fs.isEmpty

/-- Python subscript `j[k]` with a string key: on a dict, `KeyError` when the key
is missing; on any non-dict JSON value, `TypeError` (indexing a list/str/int/None
with a string key raises `TypeError` in Python). -/
def Json.getKey : Json → String → Except PyError Json
  | .obj fields, k =>
    match fields.lookup k with
    | some v => Except.ok v
    | none => Except.error PyError.keyError
  | _, _ => Except.error PyError.typeError

/-- Python subscript `j[i]` with an integer index: on a list, `IndexError` when out
of range; on a string, a one-character string (or `IndexError`); on a dict, a
missing integer key is `KeyError` (all keys here are strings); otherwise `TypeError`. -/
def Json.getIdx : Json → Nat → Except PyError Json
  | .arr xs, i =>
    match xs.get? i with
    | some v => Except.ok v
    | none => Except.error PyError.indexError
  | .str s, i =>
    match s.data.get? i with
    | some c => Except.ok (Json.str (String.mk [c]))
    | none => Except.error PyError.indexError
  | .obj _, _ => Except.error PyError.keyError
  | _, _ => Except.error PyError.typeError

/-- Python `d.get(k, default)` on the response document. The document returned by
`response.json()` on these paths is a dict (non-dicts already failed earlier
subscripting); `.get` on a non-dict raises `AttributeError`, folded into `typeError`. -/
def Json.getD : Json → String → Json → Except PyError Json
  | .obj fields, k, d => Except.ok ((fields.lookup k).getD d)
  | _, _, _ => Except.error PyError.typeError

/-- Modelled from the spec: `UsageData` (from `swarmauri.messages.concrete.AgentMessage`)
is not among the sources. Spec section 3 describes it as a "fixed record of token
counts (prompt, completion, total)" and notes "the source example is permissive";
section 9 calls the source's usage-data validation "lenient". Accordingly each
token-count field is optional and absent fields validate to absent. -/
structure UsageData where
  prompt_tokens : Option Int
  completion_tokens : Option Int
  total_tokens : Option Int
deriving DecidableEq, Repr

/-- Modelled from the spec: `UsageData.model_validate` (pydantic) is not among the
sources. Per spec sections 3 and 9 the source validation is permissive/lenient:
a missing field validates to absent. A present field of the wrong type, or a
non-dict input, fails validation (pydantic rejects those). -/
def usageValidateField (fields : List (String × Json)) (k : String) :
    Except PyError (Option Int) :=
  match fields.lookup k with
  | none => Except.ok none
  | some (Json.num n) => Except.ok (some n)
  | some _ => Except.error PyError.validationError

/-- Modelled from the spec: body of `UsageData.model_validate` (see `usageValidateField`). -/
def usageValidate : Json → Except PyError UsageData
  | Json.obj fields => do
    let p ← usageValidateField fields "prompt_tokens"
    let c ← usageValidateField fields "completion_tokens"
    let t ← usageValidateField fields "total_tokens"
    Except.ok ⟨p, c, t⟩
  | _ => Except.error PyError.validationError

/-- Modelled from the spec: `MessageBase`/`AgentMessage` are not among the sources.
Spec section 3: a Message is "{role, content, optional usage}"; section 4.1 adds an
optional `name`. `content` is a JSON value (plain text or a list of typed blocks);
`Json.null` models a Python `None` content. -/
structure Message where
  role : String
  name : Option String
  content : Json
  usage : Option UsageData

/-- The `AgentMessage(content=s)` as appended by `stream`/`astream` (no usage). -/
def agentMessage (s : String) : Message :=
  { role := "assistant", name := none, content := Json.str s, usage := none }

/-- The `AgentMessage(content=s, usage=u)` as appended by `predict`/`apredict`. -/
def agentMessageU (s : String) (u : UsageData) : Message :=
  { role := "assistant", name := none, content := Json.str s, usage := some u }

/-- A wire-shaped record: the dict produced per message by `_format_messages`. -/
abbrev WireRecord := List (String × Json)

/-- Whether a JSON value is Python `None`. -/
def Json.isNull : Json → Bool
  | .null => true
  | _ => false

/-- Model of `message.model_dump(include=["content", "role", "name"], exclude_none=True)`:
the included fields whose values are not `None`, as a dict. `role` is a string and
never `None`; `content` is dropped when `None`; `name` is dropped when `None`. -/
def dumpMessage (m : Message) : WireRecord :=
  (if m.content.isNull then [] else [("content", m.content)])
    ++ [("role", Json.str m.role)]
    ++ (match m.name with
        | some n => [("name", Json.str n)]
        | none => [])

/-- Model of `{"type": item["type"], **item}` for one content block: `item["type"]` raises
`KeyError` when missing and `TypeError` when `item` is not a dict; otherwise the
resulting dict has `"type"` first and the block's remaining entries in order, and
is extensionally the same mapping as `item`. -/
def formatBlock (item : Json) : Except PyError Json :=
  match item with
  | Json.obj fields =>
    match fields.lookup "type" with
    | some t => Except.ok (Json.obj (("type", t) :: fields.filter (fun kv => kv.1 ≠ "type")))
    | none => Except.error PyError.keyError
  | _ => Except.error PyError.typeError

/-- Python dict assignment `d[k] = v` to an existing key: value replaced in place,
key position preserved. -/
def setKey (r : WireRecord) (k : String) (v : Json) : WireRecord :=
  r.map (fun kv => if kv.1 = k then (k, v) else kv)

/-- The list comprehension over the content blocks: each block rebuilt in order;
the first raising block aborts the whole call. -/
def formatBlocks : List Json → Except PyError (List Json)
  | [] => Except.ok []
  | item :: items => do
    let b ← formatBlock item
    let bs ← formatBlocks items
    Except.ok (b :: bs)

/-- One iteration of the `_format_messages` loop: dump the message, and when
`formatted_message["content"]` is a list, rebuild each block via `formatBlock`.
`formatted_message["content"]` raises `KeyError` when a `None` content was
excluded by the dump. -/
def formatMessage (m : Message) : Except PyError WireRecord :=
  let fm := dumpMessage m
  match fm.lookup "content" with
  | none => Except.error PyError.keyError
  | some (Json.arr items) => do
    let newItems ← formatBlocks items
    Except.ok (setKey fm "content" (Json.arr newItems))
  | some _ => Except.ok fm

/-- Model of `GroqVisionModel._format_messages`: the `for message in messages` loop — one
wire record appended per message, in order; an exception aborts the loop. -/
def formatMessages : List Message → Except PyError (List WireRecord)
  | [] => Except.ok []
  | m :: ms => do
    let r ← formatMessage m
    let rs ← formatMessages ms
    Except.ok (r :: rs)

/-- An HTTP transport outcome for one unary call, as a function of the formatted
messages that make up the request payload (the generation parameters pass through
to the payload unchanged and do not affect any claim). `Except.error` covers both
network failure and `raise_for_status` on a non-2xx status; `Except.ok doc` is the
parsed `response.json()` document. -/
abbrev Transport := List WireRecord → Except PyError Json

/-- Extraction of `result["choices"][0]["message"]["content"]` from the unary response document. -/
def extractContent (doc : Json) : Except PyError Json := do
  let choices ← doc.getKey "choices"
  let first ← choices.getIdx 0
  let message ← first.getKey "message"
  message.getKey "content"

/-- Outcome of `predict`/`apredict`: the exception raised (if any) and the state of
the conversation history afterwards. `conversation.add_message` is the final
statement of `predict`, so on every error path the history is the input history. -/
structure PredictResult where
  error : Option PyError
  conv : List Message

/-- Straight-line body of `GroqVisionModel.predict`: format the history, make the unary request, extract
`choices[0].message.content`, read `result.get("usage", {})`, validate it, and
append one `AgentMessage`. `AgentMessage(content=...)` requires a string content
(a non-string raises a validation error; spec section 3: content is plain text or
blocks). The Conversation collaborator is modelled from the spec (section 6) as an
append-only list. -/
def predictCore (transport : Transport) (conv : List Message) :
    Except PyError Message := do
  let fm ← formatMessages conv
  let doc ← transport fm
  let contentJ ← extractContent doc
  let contentS ← match contentJ with
    | Json.str s => Except.ok s
    | _ => Except.error PyError.validationError
  let usageJ ← doc.getD "usage" (Json.obj [])
  let usage ← usageValidate usageJ
  Except.ok (agentMessageU contentS usage)

/-- The `predict` entry point: exactly one `AgentMessage` appended on success; on
every error path the raise happens before `conversation.add_message`, so the
history is unchanged. -/
def predict (transport : Transport) (conv : List Message) : PredictResult :=
  match predictCore transport conv with
  | Except.error e => ⟨some e, conv⟩
  | Except.ok m => ⟨none, conv ++ [m]⟩

/-- Straight-line body of `GroqVisionModel.apredict`: same logic as `predict`, run via
`asyncio.to_thread(self._make_request, data)`; the request/response mapping and
the conversation update are line-for-line the same as the synchronous path. -/
def apredictCore (transport : Transport) (conv : List Message) :
    Except PyError Message := do
  let fm ← formatMessages conv
  let doc ← transport fm
  let contentJ ← extractContent doc
  let contentS ← match contentJ with
    | Json.str s => Except.ok s
    | _ => Except.error PyError.validationError
  let usageJ ← doc.getD "usage" (Json.obj [])
  let usage ← usageValidate usageJ
  Except.ok (agentMessageU contentS usage)

/-- The `apredict` entry point: as `predict`, with `add_message` the final
statement (line 184). -/
def apredict (transport : Transport) (conv : List Message) : PredictResult :=
  match apredictCore transport conv with
  | Except.error e => ⟨some e, conv⟩
  | Except.ok m => ⟨none, conv ++ [m]⟩

/-- Character-level model of `line.replace('data: ', '')`: Python `str.replace`
scans left to right and removes every non-overlapping occurrence of the
six-character token `data: ` (the search resumes after each removed occurrence). -/
def stripDataChars : List Char → List Char
  | 'd' :: 'a' :: 't' :: 'a' :: ':' :: ' ' :: rest => stripDataChars rest
  | c :: rest => c :: stripDataChars rest
  | [] => []

/-- Model of `line.replace('data: ', '')` on the stream line. -/
def stripData (line : String) : String :=
  String.mk (stripDataChars line.data)

/-- One iteration of the `for line in response.iter_lines()` body of `stream` /
`astream`. `jsonLoads` is the external `json.loads`: `none` models
`json.JSONDecodeError`. Result: `ok none` when the line is skipped (empty
remainder, decode failure caught by `except json.JSONDecodeError: pass`, or a
falsy delta), `ok (some d)` when delta text `d` is accumulated and yielded, and
`error e` when an exception other than `JSONDecodeError` escapes the `try` block
(`chunk["choices"][0]["delta"]` on a malformed chunk, a truthy delta without
`"content"`, or `message_content += delta` with a non-string delta). -/
def processLine (jsonLoads : String → Option Json) (line : String) :
    Except PyError (Option String) :=
  let json_str := stripData line
  if json_str = "" then Except.ok none
  else
    match jsonLoads json_str with
    | none => Except.ok none
    | some chunk =>
      match (do
        let choices ← chunk.getKey "choices"
        let first ← choices.getIdx 0
        first.getKey "delta" : Except PyError Json) with
      | Except.error e => Except.error e
      | Except.ok delta =>
        if delta.truthy then
          match delta.getKey "content" with
          | Except.error e => Except.error e
          | Except.ok (Json.str s) => Except.ok (some s)
          | Except.ok _ => Except.error PyError.typeError
        else Except.ok none

/-- The `for` loop of `stream` over the remaining lines, starting from
accumulator `acc`: returns the fragments yielded (in order), the first uncaught
exception (if any), and the final accumulator value. -/
def streamLoop (jsonLoads : String → Option Json) :
    List String → String → List String × Option PyError × String
  | [], acc => ([], none, acc)
  | l :: ls, acc =>
    match processLine jsonLoads l with
    | Except.error e => ([], some e, acc)
    | Except.ok none => streamLoop jsonLoads ls acc
    | Except.ok (some d) =>
      let r := streamLoop jsonLoads ls (acc ++ d)
      (d :: r.1, r.2.1, r.2.2)

/-- Outcome of a fully consumed `stream`/`astream` call: the yielded fragments,
the uncaught exception (if any), and the conversation history afterwards. -/
structure StreamResult where
  yields : List String
  error : Option PyError
  conv : List Message

/-- Model of `GroqVisionModel.stream`, fully consumed by the caller: run the loop over the
transport's lines; if the loop finishes without an uncaught exception, append
exactly one `AgentMessage(content=message_content)`; if an exception escapes, the
generator unwinds before the append and the history is unchanged. -/
def streamRun (jsonLoads : String → Option Json) (lines : List String)
    (conv : List Message) : StreamResult :=
  match streamLoop jsonLoads lines "" with
  | (ys, some e, _) => ⟨ys, some e, conv⟩
  | (ys, none, acc) => ⟨ys, none, conv ++ [agentMessage acc]⟩

/-- The `async for` loop of `astream` (lines 295-305): its body is line-for-line
the body of `stream`'s loop. -/
def astreamLoop (jsonLoads : String → Option Json) :
    List String → String → List String × Option PyError × String
  | [], acc => ([], none, acc)
  | l :: ls, acc =>
    match processLine jsonLoads l with
    | Except.error e => ([], some e, acc)
    | Except.ok none => astreamLoop jsonLoads ls acc
    | Except.ok (some d) =>
      let r := astreamLoop jsonLoads ls (acc ++ d)
      (d :: r.1, r.2.1, r.2.2)

/-- Model of `GroqVisionModel.astream`, fully consumed: as `streamRun`, with the single
append placed after the `async with` block (line 307). -/
def astreamRun (jsonLoads : String → Option Json) (lines : List String)
    (conv : List Message) : StreamResult :=
  match astreamLoop jsonLoads lines "" with
  | (ys, some e, _) => ⟨ys, some e, conv⟩
  | (ys, none, acc) => ⟨ys, none, conv ++ [agentMessage acc]⟩

/-- Outcome of a partially consumed `stream` generator (Python generator
semantics): `closed` — the caller stopped requesting fragments and closed the
generator while it was suspended at a `yield` (or before it started);
`GeneratorExit` is raised at the suspension point, it is not caught by
`except json.JSONDecodeError`, so the generator unwinds and the
`conversation.add_message` after the loop never runs. `completed` — the
transport's lines ran out while the caller was still requesting fragments, the
loop finished and the append ran. `raised` — an uncaught exception escaped while
seeking the next fragment. Each variant carries the fragments delivered and the
conversation history afterwards. -/
inductive TakeResult where
  | closed (ys : List String) (conv : List Message)
  | completed (ys : List String) (conv : List Message)
  | raised (ys : List String) (e : PyError) (conv : List Message)

/-- Model of `GroqVisionModel.stream` driven by a caller that requests at most `k`
fragments and then closes the generator: the small-step generator semantics of
the same loop as `streamLoop`, with the append only on normal loop completion. -/
def streamTake (jsonLoads : String → Option Json) :
    List String → Nat → String → List Message → TakeResult
  | _, 0, _, conv => TakeResult.closed [] conv
  | [], _ + 1, acc, conv => TakeResult.completed [] (conv ++ [agentMessage acc])
  | l :: ls, k + 1, acc, conv =>
    match processLine jsonLoads l with
    | Except.error e => TakeResult.raised [] e conv
    | Except.ok none => streamTake jsonLoads ls (k + 1) acc conv
    | Except.ok (some d) =>
      match streamTake jsonLoads ls k (acc ++ d) conv with
      | TakeResult.closed ys c => TakeResult.closed (d :: ys) c
      | TakeResult.completed ys c => TakeResult.completed (d :: ys) c
      | TakeResult.raised ys e c => TakeResult.raised (d :: ys) e c

/-- Model of `GroqVisionModel.astream` driven by a caller that requests at most `k`
fragments and then closes the async generator (`aclose` raises `GeneratorExit` at
the suspended `yield`; the `add_message` on line 307 never runs): the loop body
is line-for-line the body of `stream`'s loop. -/
def astreamTake (jsonLoads : String → Option Json) :
    List String → Nat → String → List Message → TakeResult
  | _, 0, _, conv => TakeResult.closed [] conv
  | [], _ + 1, acc, conv => TakeResult.completed [] (conv ++ [agentMessage acc])
  | l :: ls, k + 1, acc, conv =>
    match processLine jsonLoads l with
    | Except.error e => TakeResult.raised [] e conv
    | Except.ok none => astreamTake jsonLoads ls (k + 1) acc conv
    | Except.ok (some d) =>
      match astreamTake jsonLoads ls k (acc ++ d) conv with
      | TakeResult.closed ys c => TakeResult.closed (d :: ys) c
      | TakeResult.completed ys c => TakeResult.completed (d :: ys) c
      | TakeResult.raised ys e c => TakeResult.raised (d :: ys) e c

/-- Model of `GroqVisionModel.batch`: a sequential `for` loop calling `predict` on each
conversation and appending the result to `results`. An exception from `predict`
aborts the loop: the list under construction is lost, conversations already
processed keep their in-place appends, and the remaining conversations are never
touched. The result pairs the post-call state of every conversation (in input
order) with the exception, if one was raised. Each item carries its own transport
outcome. -/
def batchGo : List (Transport × List Message) → List (List Message) × Option PyError
  | [] => ([], none)
  | (t, c) :: rest =>
    match predict t c with
    | ⟨some e, c'⟩ => (c' :: rest.map (fun x => x.2), some e)
    | ⟨none, c'⟩ =>
      let r := batchGo rest
      (c' :: r.1, r.2)

/-- Model of `GroqVisionModel.abatch`: one task per conversation, admission bounded by
`asyncio.Semaphore(max_concurrent)`, collected with `asyncio.gather(*tasks)`
WITHOUT `return_exceptions=True`. Every task runs to completion independently
(the semaphore bounds concurrency but releases on every exit path, and `gather`
does not cancel siblings when one task fails), so every conversation receives its
own `apredict` outcome; but if any task raises, awaiting the `gather` re-raises
that exception and no result list is returned. The result pairs the post-call
state of every conversation (in input order) with the first exception in input
order, if any task failed. -/
def abatchGo (items : List (Transport × List Message)) :
    List (List Message) × Option PyError :=
  let rs := items.map (fun x => apredict x.1 x.2)
  (rs.map (fun r => r.conv), rs.findSome? (fun r => r.error))

/-- The allow-list `VoyageEmbedding._allowed_models`. -/
def voyage_allowed_models : List String :=
  ["voyage-2", "voyage-large-2", "voyage-code-2", "voyage-lite-02-instruct"]

/-- The constructed `VoyageEmbedding` state: the accepted model name and the
headers built from the caller's API key. -/
structure VoyageEmbedding where
  model : String
  headers : List (String × String)
deriving DecidableEq, Repr

/-- Model of `VoyageEmbedding.__init__`: raise `ValueError` when `model` is not in the
allow-list, otherwise store the model and build the headers. The transport
argument stands for the class's ability to reach the network (`_api_url`); the
constructor never invokes it. -/
def voyageInit (transport : Transport) (api_key : String) (model : String) :
    Except PyError VoyageEmbedding :=
  if model ∈ voyage_allowed_models then
    Except.ok
      { model := model
        headers := [("Content-Type", "application/json"),
                    ("Authorization", "Bearer " ++ api_key)] }
  else Except.error PyError.valueError

/-- Concatenation of the emitted fragments, in emission order. -/
def concatFrags (ys : List String) : String :=
  ys.foldr (fun a b => a ++ b) ""

lemma concatFrags_nil : concatFrags [] = "" := rfl

lemma concatFrags_cons (d : String) (ys : List String) :
    concatFrags (d :: ys) = d ++ concatFrags ys := rfl

/-- If the `stream` loop finishes without an uncaught exception, the final
accumulator is the starting accumulator followed by the concatenation of the
yielded fragments, in emission order. -/
lemma streamLoop_acc (jl : String → Option Json) :
    ∀ (lines : List String) (acc : String) (ys : List String) (a : String),
      streamLoop jl lines acc = (ys, none, a) → a = acc ++ concatFrags ys := by
  intro lines
  induction lines with
  | nil =>
    intro acc ys a h
    simp only [streamLoop, Prod.mk.injEq] at h
    obtain ⟨h1, _, h3⟩ := h
    subst h1
    subst h3
    simp [concatFrags]
  | cons l ls ih =>
    intro acc ys a h
    simp only [streamLoop] at h
    cases hp : processLine jl l with
    | error e => rw [hp] at h; simp at h
    | ok o =>
      cases o with
      | none =>
        rw [hp] at h
        exact ih acc ys a h
      | some d =>
        rw [hp] at h
        dsimp only at h
        cases hr : streamLoop jl ls (acc ++ d) with
        | mk ys' rest =>
          cases rest with
          | mk e' a' =>
            rw [hr] at h
            simp only [Prod.mk.injEq] at h
            obtain ⟨hys, he, ha⟩ := h
            subst hys
            subst he
            subst ha
            have := ih (acc ++ d) ys' a' hr
            rw [this, concatFrags_cons, String.append_assoc]


/-- The `astream` loop (a verbatim async copy of `stream`'s loop body) computes
exactly what `stream`'s loop computes. -/
lemma astreamLoop_eq_streamLoop (jl : String → Option Json) :
    ∀ (lines : List String) (acc : String),
      astreamLoop jl lines acc = streamLoop jl lines acc := by
  intro lines
  induction lines with
  | nil => intro acc; rfl
  | cons l ls ih =>
    intro acc
    simp only [astreamLoop, streamLoop]
    cases hp : processLine jl l with
    | error e => rfl
    | ok o =>
      cases o with
      | none => exact ih acc
      | some d =>
        dsimp only
        rw [ih (acc ++ d)]

/-- C1: for every finite sequence of input stream lines on which the stream runs
to its end (no uncaught exception), `stream` and `astream` append exactly one
assistant message to the Conversation at stream end, and that message's content
equals the concatenation, in emission order, of all fragments yielded to the
caller — the empty string, with one message still appended, when zero deltas are
successfully decoded. -/
theorem groq_stream_commits_concat_of_yields
    (jl : String → Option Json) (lines : List String) (conv : List Message)
    (hs : (streamRun jl lines conv).error = none)
    (ha : (astreamRun jl lines conv).error = none) :
    ((streamRun jl lines conv).conv
        = conv ++ [agentMessage (concatFrags (streamRun jl lines conv).yields)])
      ∧ ((astreamRun jl lines conv).conv
        = conv ++ [agentMessage (concatFrags (astreamRun jl lines conv).yields)]) := by
  constructor
  · revert hs
    unfold streamRun
    cases hr : streamLoop jl lines "" with
    | mk ys rest =>
      cases rest with
      | mk e a =>
        cases e with
        | some err => intro hs; simp at hs
        | none =>
          intro _
          dsimp only
          rw [streamLoop_acc jl lines "" ys a hr]
          rw [String.empty_append]
  · revert ha
    unfold astreamRun
    rw [astreamLoop_eq_streamLoop jl lines ""]
    cases hr : streamLoop jl lines "" with
    | mk ys rest =>
      cases rest with
      | mk e a =>
        cases e with
        | some err => intro ha; simp at ha
        | none =>
          intro _
          dsimp only
          rw [streamLoop_acc jl lines "" ys a hr]
          rw [String.empty_append]

/-- Witness for C1: with a decoder that fails on every line (zero deltas decoded),
one line of input yields no fragments, the stream completes, and exactly one
assistant message with empty content is appended. -/
theorem groq_stream_commits_concat_of_yields_witness :
    ((streamRun (fun _ => none) ["hello"] []).conv
        = [] ++ [agentMessage (concatFrags (streamRun (fun _ => none) ["hello"] []).yields)])
      ∧ ((astreamRun (fun _ => none) ["hello"] []).conv
        = [] ++ [agentMessage (concatFrags (astreamRun (fun _ => none) ["hello"] []).yields)]) :=
  groq_stream_commits_concat_of_yields (fun _ => none) ["hello"] [] rfl rfl

/-- A partially consumed `stream` that is closed while suspended never reaches the
`add_message` after the loop: the conversation carried by a `closed` outcome is
the input conversation. -/
lemma streamTake_closed_conv (jl : String → Option Json) :
    ∀ (lines : List String) (k : Nat) (acc : String) (conv : List Message)
      (ys : List String) (c : List Message),
      streamTake jl lines k acc conv = TakeResult.closed ys c → c = conv := by
  intro lines
  induction lines with
  | nil =>
    intro k acc conv ys c h
    cases k with
    | zero => simp only [streamTake] at h; injection h with _ h2; exact h2.symm
    | succ k' =>
      simp only [streamTake] at h
      exact TakeResult.noConfusion h
  | cons l ls ih =>
    intro k acc conv ys c h
    cases k with
    | zero => simp only [streamTake] at h; injection h with _ h2; exact h2.symm
    | succ k' =>
      simp only [streamTake] at h
      cases hp : processLine jl l with
      | error e => rw [hp] at h; simp at h
      | ok o =>
        cases o with
        | none =>
          rw [hp] at h
          exact ih (k' + 1) acc conv ys c h
        | some d =>
          rw [hp] at h
          dsimp only at h
          cases hr : streamTake jl ls k' (acc ++ d) conv with
          | closed ys' c' =>
            rw [hr] at h
            injection h with _ h2
            exact h2 ▸ ih k' (acc ++ d) conv ys' c' hr
          | completed ys' c' => rw [hr] at h; simp at h
          | raised ys' e c' => rw [hr] at h; simp at h

/-- Same invariant for the `astream` async generator, whose loop body is a
verbatim copy of `stream`'s. -/
lemma astreamTake_closed_conv (jl : String → Option Json) :
    ∀ (lines : List String) (k : Nat) (acc : String) (conv : List Message)
      (ys : List String) (c : List Message),
      astreamTake jl lines k acc conv = TakeResult.closed ys c → c = conv := by
  intro lines
  induction lines with
  | nil =>
    intro k acc conv ys c h
    cases k with
    | zero => simp only [astreamTake] at h; injection h with _ h2; exact h2.symm
    | succ k' =>
      simp only [astreamTake] at h
      exact TakeResult.noConfusion h
  | cons l ls ih =>
    intro k acc conv ys c h
    cases k with
    | zero => simp only [astreamTake] at h; injection h with _ h2; exact h2.symm
    | succ k' =>
      simp only [astreamTake] at h
      cases hp : processLine jl l with
      | error e => rw [hp] at h; simp at h
      | ok o =>
        cases o with
        | none =>
          rw [hp] at h
          exact ih (k' + 1) acc conv ys c h
        | some d =>
          rw [hp] at h
          dsimp only at h
          cases hr : astreamTake jl ls k' (acc ++ d) conv with
          | closed ys' c' =>
            rw [hr] at h
            injection h with _ h2
            exact h2 ▸ ih k' (acc ++ d) conv ys' c' hr
          | completed ys' c' => rw [hr] at h; simp at h
          | raised ys' e c' => rw [hr] at h; simp at h

/-- C2: for every streaming session in which the caller abandons consumption of
the yielded fragment sequence before the transport stream ends (the generator is
closed while suspended at a yield, so the `closed` outcome is produced), no
message is appended to the Conversation: the final commit never happens on a
partially consumed stream. Covers `stream` and the identically structured
`astream`. -/
theorem groq_stream_abandoned_no_append
    (jl : String → Option Json) (k k' : Nat) (lines : List String)
    (conv : List Message) (ys ys' : List String) (c c' : List Message)
    (hs : streamTake jl lines k "" conv = TakeResult.closed ys c)
    (ha : astreamTake jl lines k' "" conv = TakeResult.closed ys' c') :
    c = conv ∧ c' = conv :=
  ⟨streamTake_closed_conv jl lines k "" conv ys c hs,
   astreamTake_closed_conv jl lines k' "" conv ys' c' ha⟩

/-- A decoder for concrete stream examples: `delta:A` and `delta:B` decode to
well-formed delta chunks, `bad-frame` decodes to the JSON object `{}` (valid JSON
without the event structure), and every other remainder fails JSON decoding. -/
def jlExample : String → Option Json
  | "delta:A" =>
    some (Json.obj [("choices",
      Json.arr [Json.obj [("delta", Json.obj [("content", Json.str "A")])]])])
  | "delta:B" =>
    some (Json.obj [("choices",
      Json.arr [Json.obj [("delta", Json.obj [("content", Json.str "B")])]])])
  | "bad-frame" => some (Json.obj [])
  | "delta-no-content" =>
    some (Json.obj [("choices",
      Json.arr [Json.obj [("delta", Json.obj [("stop", Json.bool true)])]])])
  | _ => none

/-- Witness for C2: a caller that takes the fragment `"A"` and then closes the
generator leaves the one-message history unchanged. -/
theorem groq_stream_abandoned_no_append_witness :
    streamTake jlExample ["delta:A", "delta:B"] 1 "" [agentMessage "hi"]
        = TakeResult.closed ["A"] [agentMessage "hi"]
      ∧ astreamTake jlExample ["delta:A", "delta:B"] 1 "" [agentMessage "hi"]
        = TakeResult.closed ["A"] [agentMessage "hi"]
      ∧ ([agentMessage "hi"] : List Message) = [agentMessage "hi"]
      ∧ ([agentMessage "hi"] : List Message) = [agentMessage "hi"] :=
  ⟨rfl, rfl,
    (groq_stream_abandoned_no_append jlExample 1 1 ["delta:A", "delta:B"]
      [agentMessage "hi"] ["A"] ["A"] [agentMessage "hi"] [agentMessage "hi"]
      rfl rfl).1,
    (groq_stream_abandoned_no_append jlExample 1 1 ["delta:A", "delta:B"]
      [agentMessage "hi"] ["A"] ["A"] [agentMessage "hi"] [agentMessage "hi"]
      rfl rfl).2⟩

/-- Counterexample to C3 as stated: `bad-frame`'s post-prefix remainder fails to
decode as a structured event record (it is the valid JSON `{}`, with no event
structure), yet it is NOT silently discarded: `chunk["choices"]` raises
`KeyError`, the uncaught exception aborts the stream after the fragment `"A"`,
accumulation does not continue to `delta:B`, and no message is appended. -/
theorem groq_stream_bad_frame_aborts_counterexample :
    (streamRun jlExample ["delta:A", "bad-frame", "delta:B"] []).yields = ["A"]
      ∧ (streamRun jlExample ["delta:A", "bad-frame", "delta:B"] []).error
          = some PyError.keyError
      ∧ (streamRun jlExample ["delta:A", "bad-frame", "delta:B"] []).conv = []
      ∧ (astreamRun jlExample ["delta:A", "bad-frame", "delta:B"] []).yields = ["A"]
      ∧ (astreamRun jlExample ["delta:A", "bad-frame", "delta:B"] []).error
          = some PyError.keyError
      ∧ (astreamRun jlExample ["delta:A", "bad-frame", "delta:B"] []).conv = [] :=
  ⟨rfl, rfl, rfl, rfl, rfl, rfl⟩

/-- C3 amended: any line whose post-prefix remainder fails JSON decoding
(`json.loads` raises `JSONDecodeError`) is silently discarded and accumulation
continues over the remaining lines (lines that decode as JSON but lack the
expected event structure instead raise an uncaught exception); in particular, for
input lines `["delta:A", "garbage", "delta:B"]`, where the delta lines decode
successfully and `garbage` fails JSON decoding, the emitted sequence is
`["A", "B"]` and the final appended content is `"AB"`. -/
theorem groq_stream_decode_failure_discarded
    (jl : String → Option Json) (l : String) (ls : List String) (acc : String)
    (hne : stripData l ≠ "")
    (hfail : jl (stripData l) = none) :
    (streamLoop jl (l :: ls) acc = streamLoop jl ls acc)
      ∧ (astreamLoop jl (l :: ls) acc = astreamLoop jl ls acc)
      ∧ (streamRun jlExample ["delta:A", "garbage", "delta:B"] []
          = ⟨["A", "B"], none, [agentMessage "AB"]⟩)
      ∧ (astreamRun jlExample ["delta:A", "garbage", "delta:B"] []
          = ⟨["A", "B"], none, [agentMessage "AB"]⟩) := by
  have hp : processLine jl l = Except.ok none := by
    simp only [processLine]
    rw [if_neg hne, hfail]
  refine ⟨?_, ?_, rfl, rfl⟩
  · simp only [streamLoop, hp]
  · simp only [astreamLoop, hp]

/-- Witness for the amended C3: `garbage` fails JSON decoding under `jlExample`
and is discarded, so the loop over `["garbage", "delta:B"]` computes exactly the
loop over `["delta:B"]`; the spec's concrete three-line instance also holds. -/
theorem groq_stream_decode_failure_discarded_witness :
    (streamLoop jlExample ["garbage", "delta:B"] "" = streamLoop jlExample ["delta:B"] "")
      ∧ (astreamLoop jlExample ["garbage", "delta:B"] ""
          = astreamLoop jlExample ["delta:B"] "")
      ∧ (streamRun jlExample ["delta:A", "garbage", "delta:B"] []
          = ⟨["A", "B"], none, [agentMessage "AB"]⟩)
      ∧ (astreamRun jlExample ["delta:A", "garbage", "delta:B"] []
          = ⟨["A", "B"], none, [agentMessage "AB"]⟩) :=
  groq_stream_decode_failure_discarded jlExample "garbage" ["delta:B"] ""
    (by decide) rfl

/-- C10: for a stream line that is valid JSON but lacks the expected event
structure — `{}` with no `"choices"` key, and a chunk whose truthy delta object
has no `"content"` key — `stream` and `astream` raise an uncaught exception
(only JSON-decode failures are suppressed), the stream aborts, and no final
message is appended to the Conversation. -/
theorem groq_stream_invalid_structure_raises (conv : List Message) :
    (streamRun jlExample ["bad-frame"] conv = ⟨[], some PyError.keyError, conv⟩)
      ∧ (streamRun jlExample ["delta-no-content"] conv
          = ⟨[], some PyError.keyError, conv⟩)
      ∧ (astreamRun jlExample ["bad-frame"] conv = ⟨[], some PyError.keyError, conv⟩)
      ∧ (astreamRun jlExample ["delta-no-content"] conv
          = ⟨[], some PyError.keyError, conv⟩) :=
  ⟨rfl, rfl, rfl, rfl⟩

/-- The async unary core is the same computation as the synchronous one
(`apredict` duplicates `predict`'s request/response mapping verbatim). -/
lemma apredictCore_eq_predictCore : apredictCore = predictCore := rfl

lemma exceptBind_ok {α β : Type} (a : α) (f : α → Except PyError β) :
    (Except.ok a >>= f) = f a := rfl

lemma exceptBind_error {α β : Type} (e : PyError) (f : α → Except PyError β) :
    ((Except.error e : Except PyError α) >>= f : Except PyError β)
      = Except.error e := rfl

/-- C4: for every Conversation and every unary call (`predict`/`apredict`), if
the transport fails (network error or non-success status) or the response
document lacks the expected fields, an error is raised to the caller; and on
every error path of the unary operation the Conversation is left unmodified —
no message is appended. -/
theorem groq_predict_error_leaves_conversation_unmodified
    (t : Transport) (conv : List Message) :
    ((predict t conv).error.isSome → (predict t conv).conv = conv)
      ∧ ((apredict t conv).error.isSome → (apredict t conv).conv = conv)
      ∧ (∀ fm e, formatMessages conv = Except.ok fm → t fm = Except.error e →
          (predict t conv).error = some e ∧ (apredict t conv).error = some e)
      ∧ (∀ fm doc e, formatMessages conv = Except.ok fm → t fm = Except.ok doc →
          extractContent doc = Except.error e →
          (predict t conv).error = some e ∧ (apredict t conv).error = some e) := by
  refine ⟨?_, ?_, ?_, ?_⟩
  · intro h
    cases hc : predictCore t conv with
    | error e => simp [predict, hc]
    | ok m => simp [predict, hc] at h
  · intro h
    cases hc : apredictCore t conv with
    | error e => simp [apredict, hc]
    | ok m => simp [apredict, hc] at h
  · intro fm e h1 h2
    have hc : predictCore t conv = Except.error e := by
      simp only [predictCore, h1, h2, exceptBind_ok, exceptBind_error]
    have hc' : apredictCore t conv = Except.error e := by
      rw [apredictCore_eq_predictCore]; exact hc
    exact ⟨by simp [predict, hc], by simp [apredict, hc']⟩
  · intro fm doc e h1 h2 h3
    have hc : predictCore t conv = Except.error e := by
      simp only [predictCore, h1, h2, h3, exceptBind_ok, exceptBind_error]
    have hc' : apredictCore t conv = Except.error e := by
      rw [apredictCore_eq_predictCore]; exact hc
    exact ⟨by simp [predict, hc], by simp [apredict, hc']⟩

/-- Witness for C4: a failing transport on an empty history raises the transport
error through `predict` and `apredict`, and both leave the history unchanged. -/
theorem groq_predict_error_leaves_conversation_unmodified_witness :
    ((predict (fun _ => Except.error PyError.transportError) []).error
        = some PyError.transportError)
      ∧ ((apredict (fun _ => Except.error PyError.transportError) []).error
        = some PyError.transportError)
      ∧ ((predict (fun _ => Except.error PyError.transportError) []).conv = [])
      ∧ ((apredict (fun _ => Except.error PyError.transportError) []).conv = []) := by
  have h := groq_predict_error_leaves_conversation_unmodified
    (fun _ => Except.error PyError.transportError) []
  have he := h.2.2.1 [] PyError.transportError rfl rfl
  exact ⟨he.1, he.2, h.1 (by rw [he.1]; rfl), h.2.1 (by rw [he.2]; rfl)⟩

lemma predict_conv_extends (t : Transport) (conv : List Message) :
    conv <+: (predict t conv).conv ∧ (predict t conv).conv.length ≤ conv.length + 1 := by
  cases hc : predictCore t conv with
  | error e => simp [predict, hc]
  | ok m => simp [predict, hc]

lemma apredict_conv_extends (t : Transport) (conv : List Message) :
    conv <+: (apredict t conv).conv ∧ (apredict t conv).conv.length ≤ conv.length + 1 := by
  cases hc : apredictCore t conv with
  | error e => simp [apredict, hc]
  | ok m => simp [apredict, hc]

lemma streamRun_conv_extends (jl : String → Option Json) (lines : List String)
    (conv : List Message) :
    conv <+: (streamRun jl lines conv).conv
      ∧ (streamRun jl lines conv).conv.length ≤ conv.length + 1 := by
  unfold streamRun
  cases hr : streamLoop jl lines "" with
  | mk ys rest =>
    cases rest with
    | mk e a => cases e <;> simp

lemma astreamRun_conv_extends (jl : String → Option Json) (lines : List String)
    (conv : List Message) :
    conv <+: (astreamRun jl lines conv).conv
      ∧ (astreamRun jl lines conv).conv.length ≤ conv.length + 1 := by
  unfold astreamRun
  cases hr : astreamLoop jl lines "" with
  | mk ys rest =>
    cases rest with
    | mk e a => cases e <;> simp

lemma batchGo_extends (items : List (Transport × List Message)) :
    List.Forall₂ (fun a b => a <+: b ∧ b.length ≤ a.length + 1)
      (items.map (fun x => x.2)) (batchGo items).1 := by
  induction items with
  | nil => simp [batchGo]
  | cons x rest ih =>
    obtain ⟨t, c⟩ := x
    simp only [batchGo, List.map_cons]
    cases hp : predict t c with
    | mk e c' =>
      have hx := predict_conv_extends t c
      rw [hp] at hx
      cases e with
      | some e' =>
        dsimp only
        exact List.Forall₂.cons hx
          (List.forall₂_same.mpr (fun a _ => ⟨List.prefix_refl a, by simp⟩))
      | none =>
        dsimp only
        exact List.Forall₂.cons hx ih

lemma abatchGo_extends (items : List (Transport × List Message)) :
    List.Forall₂ (fun a b => a <+: b ∧ b.length ≤ a.length + 1)
      (items.map (fun x => x.2)) (abatchGo items).1 := by
  induction items with
  | nil => simp [abatchGo]
  | cons x rest ih =>
    simp only [abatchGo, List.map_cons] at *
    exact List.Forall₂.cons (apredict_conv_extends x.1 x.2) ih

/-- C7: for every operation of the core (`predict`, `apredict`, `stream`,
`astream`, `batch`, `abatch`) and every Conversation passed in, the prior message
history is preserved unchanged as a prefix of the resulting history, and at most
one message is appended per completed operation (per conversation for the batch
runners); existing messages are never reordered, modified, or deleted. -/
theorem groq_operations_append_only_history
    (t : Transport) (conv : List Message) (jl : String → Option Json)
    (lines : List String) (items : List (Transport × List Message)) :
    (conv <+: (predict t conv).conv ∧ (predict t conv).conv.length ≤ conv.length + 1)
      ∧ (conv <+: (apredict t conv).conv
          ∧ (apredict t conv).conv.length ≤ conv.length + 1)
      ∧ (conv <+: (streamRun jl lines conv).conv
          ∧ (streamRun jl lines conv).conv.length ≤ conv.length + 1)
      ∧ (conv <+: (astreamRun jl lines conv).conv
          ∧ (astreamRun jl lines conv).conv.length ≤ conv.length + 1)
      ∧ List.Forall₂ (fun a b => a <+: b ∧ b.length ≤ a.length + 1)
          (items.map (fun x => x.2)) (batchGo items).1
      ∧ List.Forall₂ (fun a b => a <+: b ∧ b.length ≤ a.length + 1)
          (items.map (fun x => x.2)) (abatchGo items).1 :=
  ⟨predict_conv_extends t conv, apredict_conv_extends t conv,
   streamRun_conv_extends jl lines conv, astreamRun_conv_extends jl lines conv,
   batchGo_extends items, abatchGo_extends items⟩

/-- A unary response document with one completion `"ok"` and no usage mapping. -/
def docOK : Json :=
  Json.obj [("choices",
    Json.arr [Json.obj [("message", Json.obj [("content", Json.str "ok")])]])]

/-- A transport that always succeeds with `docOK`. -/
def tOK : Transport := fun _ => Except.ok docOK

/-- A transport that always fails (network error / non-2xx status). -/
def tFail : Transport := fun _ => Except.error PyError.transportError

/-- Five independent requests on empty conversations; request #3 fails. -/
def items5 : List (Transport × List Message) :=
  [(tOK, []), (tOK, []), (tFail, []), (tOK, []), (tOK, [])]

/-- The message `predict` appends for `docOK` (usage validated from `{}`). -/
def mOK : Message := agentMessageU "ok" ⟨none, none, none⟩

/-- The `apredict` operation computes exactly what `predict` computes. -/
lemma apredict_eq_predict : apredict = predict := rfl

/-- Counterexample to C5 as stated: over `items5` (five independent requests,
request #3 failing), the sync `batch` raises the error — requests #4 and #5 are
never executed (their conversations stay empty) — and `abatch`'s
`asyncio.gather(*tasks)` without `return_exceptions=True` re-raises the
exception, so no result list with position #3 "marked as an error" is ever
returned by either runner. -/
theorem groq_batch_failure_aborts_counterexample :
    ((batchGo items5).2 = some PyError.transportError)
      ∧ ((batchGo items5).1 = [[mOK], [mOK], [], [], []])
      ∧ ((abatchGo items5).2 = some PyError.transportError)
      ∧ ((abatchGo items5).1 = [[mOK], [mOK], [], [mOK], [mOK]]) :=
  ⟨rfl, rfl, rfl, rfl⟩

/-- The `batch` loop stops at the first failing item: every earlier item completes, the
failing item's exception propagates, and later items are never touched. -/
lemma batchGo_first_error (t : Transport) (c : List Message)
    (post : List (Transport × List Message)) (e : PyError) :
    ∀ (pre : List (Transport × List Message)),
      pre.all (fun y => (predict y.1 y.2).error.isNone) = true →
      (predict t c).error = some e →
      batchGo (pre ++ (t, c) :: post)
        = (pre.map (fun y => (predict y.1 y.2).conv)
            ++ (predict t c).conv :: post.map (fun y => y.2), some e) := by
  intro pre
  induction pre with
  | nil =>
    intro _ hf
    simp only [List.nil_append, List.map_nil, batchGo]
    cases hp : predict t c with
    | mk err c' =>
      rw [hp] at hf
      dsimp only at hf
      subst hf
      rfl
  | cons y pre' ih =>
    intro hok hf
    rw [List.all_cons, Bool.and_eq_true] at hok
    obtain ⟨hy, hok'⟩ := hok
    simp only [List.cons_append, List.map_cons, batchGo]
    cases hp : predict y.1 y.2 with
    | mk err c' =>
      rw [hp] at hy
      cases err with
      | some e' => simp at hy
      | none =>
        dsimp only
        rw [List.append_eq, ih hok' hf]

/-- When one item fails, `abatch` still executes every task independently (each
conversation receives its own `apredict` outcome), but the collected result
raises: the error slot of the model is `some`. -/
lemma abatchGo_error_of_failure (t : Transport) (c : List Message)
    (post : List (Transport × List Message)) (e : PyError) :
    ∀ (pre : List (Transport × List Message)),
      pre.all (fun y => (predict y.1 y.2).error.isNone) = true →
      (predict t c).error = some e →
      (abatchGo (pre ++ (t, c) :: post)).2 = some e := by
  intro pre
  induction pre with
  | nil =>
    intro _ hf
    simp only [List.nil_append, abatchGo, List.map_cons, List.findSome?_cons]
    rw [apredict_eq_predict, hf]
  | cons y pre' ih =>
    intro hok hf
    rw [List.all_cons, Bool.and_eq_true] at hok
    obtain ⟨hy, hok'⟩ := hok
    simp only [List.cons_append, abatchGo, List.map_cons, List.findSome?_cons] at *
    rw [apredict_eq_predict]
    cases hp : (predict y.1 y.2).error with
    | some e' => rw [hp] at hy; simp at hy
    | none => exact ih hok' hf

/-- C5 amended: one item's failure makes the batch call raise rather than return
a result list with that item marked as an error. `batch` completes the items
before the first failing one, propagates the failing item's exception, and never
executes the later items; `abatch` executes every task independently (each
conversation receives its own update) but `asyncio.gather` without
`return_exceptions=True` re-raises the exception, so no result list is returned. -/
theorem groq_batch_item_failure_raises
    (t : Transport) (c : List Message) (pre post : List (Transport × List Message))
    (e : PyError)
    (hok : pre.all (fun y => (predict y.1 y.2).error.isNone) = true)
    (hf : (predict t c).error = some e) :
    (batchGo (pre ++ (t, c) :: post)
        = (pre.map (fun y => (predict y.1 y.2).conv)
            ++ (predict t c).conv :: post.map (fun y => y.2), some e))
      ∧ ((abatchGo (pre ++ (t, c) :: post)).2 = some e)
      ∧ ((abatchGo (pre ++ (t, c) :: post)).1
          = (pre ++ (t, c) :: post).map (fun y => (apredict y.1 y.2).conv)) :=
  ⟨batchGo_first_error t c post e pre hok hf,
   abatchGo_error_of_failure t c post e pre hok hf,
   by simp only [abatchGo, List.map_map]; rfl⟩

/-- The two successful requests before and after the failing one in the
five-request scenario. -/
def pairEx : List (Transport × List Message) := [(tOK, []), (tOK, [])]

/-- Witness for the amended C5: the five-request scenario with request #3
failing — `batch` stops after #1 and #2, `abatch` raises while every
conversation got its own outcome. -/
theorem groq_batch_item_failure_raises_witness :
    (batchGo (pairEx ++ (tFail, []) :: pairEx)
        = (pairEx.map (fun y => (predict y.1 y.2).conv)
            ++ (predict tFail []).conv :: pairEx.map (fun y => y.2),
           some PyError.transportError))
      ∧ ((abatchGo (pairEx ++ (tFail, []) :: pairEx)).2
          = some PyError.transportError)
      ∧ ((abatchGo (pairEx ++ (tFail, []) :: pairEx)).1
          = (pairEx ++ (tFail, []) :: pairEx).map
              (fun y => (apredict y.1 y.2).conv)) :=
  groq_batch_item_failure_raises tFail [] pairEx pairEx
    PyError.transportError rfl rfl

/-- C6: constructing the VoyageEmbedding adapter with a model identifier not in
the allow-list fails immediately with a configuration error (`ValueError`) and
issues no network call (the result does not depend on the transport at all);
for every identifier in the allow-list, construction succeeds. -/
theorem voyage_init_allowlist_fail_fast
    (t t' : Transport) (api_key model : String) :
    ((voyageInit t api_key model).isOk = true ↔ model ∈ voyage_allowed_models)
      ∧ (model ∉ voyage_allowed_models →
          voyageInit t api_key model = Except.error PyError.valueError)
      ∧ voyageInit t api_key model = voyageInit t' api_key model := by
  refine ⟨?_, ?_, rfl⟩
  · unfold voyageInit
    by_cases h : model ∈ voyage_allowed_models
    · simp [h, Except.isOk, Except.toBool]
    · simp [h, Except.isOk, Except.toBool]
  · intro h
    simp [voyageInit, h]

/-- Witness for C6: `"gpt-4"` is rejected with `ValueError` (no transport use),
`"voyage-2"` is accepted. -/
theorem voyage_init_allowlist_fail_fast_witness :
    (voyageInit tOK "key" "gpt-4" = Except.error PyError.valueError)
      ∧ ((voyageInit tOK "key" "voyage-2").isOk = true) :=
  ⟨(voyage_init_allowlist_fail_fast tOK tOK "key" "gpt-4").2.1 (by decide),
   (voyage_init_allowlist_fail_fast tOK tOK "key" "voyage-2").1.mpr (by decide)⟩

/-- Key lookup in a JSON object (none on a missing key or a non-object). -/
def Json.lookupKey : Json → String → Option Json
  | .obj fields, k => fields.lookup k
  | _, _ => none

lemma lookup_filter_ne (fields : List (String × Json)) (k : String)
    (hk : k ≠ "type") :
    (fields.filter (fun kv => kv.1 ≠ "type")).lookup k = fields.lookup k := by
  induction fields with
  | nil => rfl
  | cons kv rest ih =>
    obtain ⟨a, b⟩ := kv
    rw [List.filter_cons, List.lookup_cons]
    by_cases h : a = "type"
    · subst h
      have hne : (k == "type") = false := by rw [beq_eq_false_iff_ne]; exact hk
      rw [hne]
      have hcond : (decide ((("type", b) : String × Json).1 ≠ "type")) = false := by
        simp
      rw [hcond]
      exact ih
    · have hcond : (decide (((a, b) : String × Json).1 ≠ "type")) = true := by
        simp [h]
      rw [hcond, if_pos rfl, List.lookup_cons]
      cases hka : k == a with
      | true => rfl
      | false => exact ih

/-- A successfully formatted block is extensionally the same mapping as the
input block: the `"type"` discriminator is preserved and every field looks up
to the same value. -/
lemma formatBlock_lookup (item b : Json) (h : formatBlock item = Except.ok b) :
    ∀ k, b.lookupKey k = item.lookupKey k := by
  cases item with
  | obj fields =>
    simp only [formatBlock] at h
    cases ht : fields.lookup "type" with
    | none => rw [ht] at h; exact Except.noConfusion h
    | some t =>
      rw [ht] at h
      injection h with hb
      subst hb
      intro k
      by_cases hk : k = "type"
      · subst hk
        simp [Json.lookupKey, List.lookup_cons, ht]
      · have hne : (k == "type") = false := by rw [beq_eq_false_iff_ne]; exact hk
        simp only [Json.lookupKey]
        rw [List.lookup_cons, hne]
        exact lookup_filter_ne fields k hk
  | null => exact Except.noConfusion h
  | bool b' => exact Except.noConfusion h
  | num n => exact Except.noConfusion h
  | str s => exact Except.noConfusion h
  | arr xs => exact Except.noConfusion h

/-- Blocks pass through one-for-one, in order, each extensionally unchanged. -/
lemma formatBlocks_spec :
    ∀ (items bs : List Json), formatBlocks items = Except.ok bs →
      List.Forall₂ (fun i b => ∀ k, Json.lookupKey b k = Json.lookupKey i k) items bs := by
  intro items
  induction items with
  | nil =>
    intro bs h
    injection h with h'
    subst h'
    exact List.Forall₂.nil
  | cons item rest ih =>
    intro bs h
    simp only [formatBlocks] at h
    cases hb : formatBlock item with
    | error e => rw [hb] at h; simp [exceptBind_error] at h
    | ok b =>
      rw [hb] at h
      rw [exceptBind_ok] at h
      cases hr : formatBlocks rest with
      | error e => rw [hr] at h; simp [exceptBind_error] at h
      | ok bs' =>
        rw [hr] at h
        rw [exceptBind_ok] at h
        injection h with h'
        subst h'
        exact List.Forall₂.cons (formatBlock_lookup item b hb) (ih bs' hr)

/-- Per-message wire-shape contract: only `content`/`role`/`name` keys; `role`
present; `name` omitted exactly when the message's name is `None`; list content
passes through block-by-block, each block extensionally unchanged. -/
def wireShape (m : Message) (r : WireRecord) : Prop :=
  (∀ kv ∈ r, kv.1 = "content" ∨ kv.1 = "role" ∨ kv.1 = "name")
    ∧ r.lookup "role" = some (Json.str m.role)
    ∧ r.lookup "name" = Option.map Json.str m.name
    ∧ (∀ items, m.content = Json.arr items →
        ∃ bs, r.lookup "content" = some (Json.arr bs)
          ∧ List.Forall₂ (fun i b => ∀ k, Json.lookupKey b k = Json.lookupKey i k)
              items bs)

lemma formatMessage_spec (m : Message) (r : WireRecord)
    (h : formatMessage m = Except.ok r) : wireShape m r := by
  obtain ⟨role, name, content, usage⟩ := m
  cases content with
  | null =>
    cases name with
    | none => exact Except.noConfusion h
    | some nm => exact Except.noConfusion h
  | arr items0 =>
    cases name with
    | none =>
      have h' : (do
          let newItems ← formatBlocks items0
          Except.ok (setKey [("content", Json.arr items0), ("role", Json.str role)]
            "content" (Json.arr newItems)) : Except PyError WireRecord)
          = Except.ok r := h
      cases hb : formatBlocks items0 with
      | error e =>
        rw [hb, exceptBind_error] at h'
        exact Except.noConfusion h'
      | ok bs =>
        rw [hb, exceptBind_ok] at h'
        have h'' : Except.ok ([("content", Json.arr bs), ("role", Json.str role)]
            : WireRecord) = Except.ok r := h'
        injection h'' with hr
        subst hr
        refine ⟨?_, rfl, rfl, ?_⟩
        · intro kv hkv
          rcases List.mem_cons.mp hkv with rfl | hkv'
          · left; rfl
          · rcases List.mem_cons.mp hkv' with rfl | hkv''
            · right; left; rfl
            · exact absurd hkv'' (List.not_mem_nil kv)
        · intro items heq
          injection heq with hi
          subst hi
          exact ⟨bs, rfl, formatBlocks_spec items0 bs hb⟩
    | some nm =>
      have h' : (do
          let newItems ← formatBlocks items0
          Except.ok (setKey [("content", Json.arr items0), ("role", Json.str role),
            ("name", Json.str nm)] "content" (Json.arr newItems))
          : Except PyError WireRecord)
          = Except.ok r := h
      cases hb : formatBlocks items0 with
      | error e =>
        rw [hb, exceptBind_error] at h'
        exact Except.noConfusion h'
      | ok bs =>
        rw [hb, exceptBind_ok] at h'
        have h'' : Except.ok ([("content", Json.arr bs), ("role", Json.str role),
            ("name", Json.str nm)] : WireRecord) = Except.ok r := h'
        injection h'' with hr
        subst hr
        refine ⟨?_, rfl, rfl, ?_⟩
        · intro kv hkv
          rcases List.mem_cons.mp hkv with rfl | hkv'
          · left; rfl
          · rcases List.mem_cons.mp hkv' with rfl | hkv''
            · right; left; rfl
            · rcases List.mem_cons.mp hkv'' with rfl | hkv3
              · right; right; rfl
              · exact absurd hkv3 (List.not_mem_nil kv)
        · intro items heq
          injection heq with hi
          subst hi
          exact ⟨bs, rfl, formatBlocks_spec items0 bs hb⟩
  | bool b0 =>
    cases name with
    | none =>
      have h' : Except.ok ([("content", Json.bool b0), ("role", Json.str role)]
          : WireRecord) = Except.ok r := h
      injection h' with hr
      subst hr
      refine ⟨?_, rfl, rfl, fun items heq => Json.noConfusion heq⟩
      intro kv hkv
      rcases List.mem_cons.mp hkv with rfl | hkv'
      · left; rfl
      · rcases List.mem_cons.mp hkv' with rfl | hkv''
        · right; left; rfl
        · exact absurd hkv'' (List.not_mem_nil kv)
    | some nm =>
      have h' : Except.ok ([("content", Json.bool b0), ("role", Json.str role),
          ("name", Json.str nm)] : WireRecord) = Except.ok r := h
      injection h' with hr
      subst hr
      refine ⟨?_, rfl, rfl, fun items heq => Json.noConfusion heq⟩
      intro kv hkv
      rcases List.mem_cons.mp hkv with rfl | hkv'
      · left; rfl
      · rcases List.mem_cons.mp hkv' with rfl | hkv''
        · right; left; rfl
        · rcases List.mem_cons.mp hkv'' with rfl | hkv3
          · right; right; rfl
          · exact absurd hkv3 (List.not_mem_nil kv)
  | num n0 =>
    cases name with
    | none =>
      have h' : Except.ok ([("content", Json.num n0), ("role", Json.str role)]
          : WireRecord) = Except.ok r := h
      injection h' with hr
      subst hr
      refine ⟨?_, rfl, rfl, fun items heq => Json.noConfusion heq⟩
      intro kv hkv
      rcases List.mem_cons.mp hkv with rfl | hkv'
      · left; rfl
      · rcases List.mem_cons.mp hkv' with rfl | hkv''
        · right; left; rfl
        · exact absurd hkv'' (List.not_mem_nil kv)
    | some nm =>
      have h' : Except.ok ([("content", Json.num n0), ("role", Json.str role),
          ("name", Json.str nm)] : WireRecord) = Except.ok r := h
      injection h' with hr
      subst hr
      refine ⟨?_, rfl, rfl, fun items heq => Json.noConfusion heq⟩
      intro kv hkv
      rcases List.mem_cons.mp hkv with rfl | hkv'
      · left; rfl
      · rcases List.mem_cons.mp hkv' with rfl | hkv''
        · right; left; rfl
        · rcases List.mem_cons.mp hkv'' with rfl | hkv3
          · right; right; rfl
          · exact absurd hkv3 (List.not_mem_nil kv)
  | str s0 =>
    cases name with
    | none =>
      have h' : Except.ok ([("content", Json.str s0), ("role", Json.str role)]
          : WireRecord) = Except.ok r := h
      injection h' with hr
      subst hr
      refine ⟨?_, rfl, rfl, fun items heq => Json.noConfusion heq⟩
      intro kv hkv
      rcases List.mem_cons.mp hkv with rfl | hkv'
      · left; rfl
      · rcases List.mem_cons.mp hkv' with rfl | hkv''
        · right; left; rfl
        · exact absurd hkv'' (List.not_mem_nil kv)
    | some nm =>
      have h' : Except.ok ([("content", Json.str s0), ("role", Json.str role),
          ("name", Json.str nm)] : WireRecord) = Except.ok r := h
      injection h' with hr
      subst hr
      refine ⟨?_, rfl, rfl, fun items heq => Json.noConfusion heq⟩
      intro kv hkv
      rcases List.mem_cons.mp hkv with rfl | hkv'
      · left; rfl
      · rcases List.mem_cons.mp hkv' with rfl | hkv''
        · right; left; rfl
        · rcases List.mem_cons.mp hkv'' with rfl | hkv3
          · right; right; rfl
          · exact absurd hkv3 (List.not_mem_nil kv)
  | obj fs0 =>
    cases name with
    | none =>
      have h' : Except.ok ([("content", Json.obj fs0), ("role", Json.str role)]
          : WireRecord) = Except.ok r := h
      injection h' with hr
      subst hr
      refine ⟨?_, rfl, rfl, fun items heq => Json.noConfusion heq⟩
      intro kv hkv
      rcases List.mem_cons.mp hkv with rfl | hkv'
      · left; rfl
      · rcases List.mem_cons.mp hkv' with rfl | hkv''
        · right; left; rfl
        · exact absurd hkv'' (List.not_mem_nil kv)
    | some nm =>
      have h' : Except.ok ([("content", Json.obj fs0), ("role", Json.str role),
          ("name", Json.str nm)] : WireRecord) = Except.ok r := h
      injection h' with hr
      subst hr
      refine ⟨?_, rfl, rfl, fun items heq => Json.noConfusion heq⟩
      intro kv hkv
      rcases List.mem_cons.mp hkv with rfl | hkv'
      · left; rfl
      · rcases List.mem_cons.mp hkv' with rfl | hkv''
        · right; left; rfl
        · rcases List.mem_cons.mp hkv'' with rfl | hkv3
          · right; right; rfl
          · exact absurd hkv3 (List.not_mem_nil kv)

/-- C8: for every ordered sequence of messages, the Message Formatter
(`_format_messages`) is a pure transform producing one wire record per input
message, in order, containing only `role`, optional `name`, and `content`, with
`None`-valued optional fields omitted entirely (no key, not a null value); when a
message's content is a list of typed blocks, each block passes through with its
`type` discriminator preserved and its existing fields merged in (the output
block is extensionally the same mapping as the input block). -/
theorem groq_format_messages_wire_shape
    (ms : List Message) (rs : List WireRecord)
    (h : formatMessages ms = Except.ok rs) :
    rs.length = ms.length ∧ List.Forall₂ wireShape ms rs := by
  induction ms generalizing rs with
  | nil =>
    injection h with h'
    subst h'
    exact ⟨rfl, List.Forall₂.nil⟩
  | cons m ms' ih =>
    simp only [formatMessages] at h
    cases hm : formatMessage m with
    | error e =>
      rw [hm, exceptBind_error] at h
      exact Except.noConfusion h
    | ok r =>
      rw [hm, exceptBind_ok] at h
      cases hms : formatMessages ms' with
      | error e =>
        rw [hms, exceptBind_error] at h
        exact Except.noConfusion h
      | ok rs' =>
        rw [hms, exceptBind_ok] at h
        injection h with h'
        subst h'
        obtain ⟨hlen, hfa⟩ := ih rs' hms
        exact ⟨by simp [hlen], List.Forall₂.cons (formatMessage_spec m r hm) hfa⟩

/-- The spec's concrete formatter input: content `[{type:"text", text:"hi"}]`
and a `None` name field. -/
def mEx : Message :=
  { role := "user", name := none,
    content := Json.arr [Json.obj [("type", Json.str "text"), ("text", Json.str "hi")]],
    usage := none }

/-- Witness for C8: formatting the spec's concrete message produces exactly one
record, whose `wireShape` instance gives `lookup "name" = none` — the `name` key
is omitted entirely, not set to null. -/
theorem groq_format_messages_wire_shape_witness :
    ([[("content", Json.arr [Json.obj [("type", Json.str "text"),
        ("text", Json.str "hi")]]), ("role", Json.str "user")]]
          : List WireRecord).length = [mEx].length
      ∧ List.Forall₂ wireShape [mEx]
          [[("content", Json.arr [Json.obj [("type", Json.str "text"),
            ("text", Json.str "hi")]]), ("role", Json.str "user")]] :=
  groq_format_messages_wire_shape [mEx]
    [[("content", Json.arr [Json.obj [("type", Json.str "text"),
      ("text", Json.str "hi")]]), ("role", Json.str "user")]] rfl

/-- Counterexample to C9 as stated: a raw usage mapping with ALL required
token-count fields missing (`{}`) validates successfully to an all-absent
record, and a unary response carrying no usage mapping (`docOK`) yields a
successfully appended message holding exactly that all-absent usage record —
validation does not fail closed. -/
theorem groq_usage_missing_fields_validate_counterexample :
    (usageValidate (Json.obj []) = Except.ok ⟨none, none, none⟩)
      ∧ ((predict tOK []).error = none)
      ∧ ((predict tOK []).conv = [agentMessageU "ok" ⟨none, none, none⟩]) :=
  ⟨rfl, rfl, rfl⟩

/-- C9 amended: usage-data validation is permissive for missing fields — any raw
mapping in which the `prompt_tokens`, `completion_tokens` and `total_tokens`
fields are absent validates successfully to an all-absent `UsageData` rather
than failing; in particular a unary response with no usage mapping validates the
defaulted `{}` and `predict` appends a message carrying the all-absent record.
Fail-closed validation is a spec recommendation, not the code's behaviour. -/
theorem groq_usage_validation_lenient
    (fields : List (String × Json))
    (hp : fields.lookup "prompt_tokens" = none)
    (hc : fields.lookup "completion_tokens" = none)
    (ht : fields.lookup "total_tokens" = none) :
    (usageValidate (Json.obj fields) = Except.ok ⟨none, none, none⟩)
      ∧ ((predict tOK []).conv = [agentMessageU "ok" ⟨none, none, none⟩]) := by
  refine ⟨?_, rfl⟩
  simp only [usageValidate, usageValidateField, hp, hc, ht]
  rfl

/-- Witness for the amended C9: the empty mapping (as defaulted by
`result.get("usage", {})`) validates to the all-absent record. -/
theorem groq_usage_validation_lenient_witness :
    (usageValidate (Json.obj []) = Except.ok ⟨none, none, none⟩)
      ∧ ((predict tOK []).conv = [agentMessageU "ok" ⟨none, none, none⟩]) :=
  groq_usage_validation_lenient [] rfl rfl rfl
